import Mathlib

/-!
Verification development for the journal sync utility of this repository.

The embedded code comes from three source files:
* the one-shot sync script (`syncJournal`, `ensureFrontmatter`, the stale-file
  removal loop and the git publish tail);
* the continuous sync script (the same pipeline plus the `--watch` interval
  loop and its catch/exit policy);
* `scripts/watch-journal.js` (the chokidar watcher with a 30-minute debounce:
  `scheduleSync`, `triggerSync`, and the startup timer).

Text content and filenames are modelled as lists of characters; a directory is
an association list from filename to file content, mirroring the flat file
listings the scripts work with.
-/

/-- Text: a string modelled as its list of characters (byte-for-byte content). -/
abbrev Chars := List Char

/-- Convert a Lean string literal to the character-list model. -/
def str (s : String) : Chars := s.toList

/-- JS `s.startsWith(pre)`: the first `pre.length` characters equal `pre`. -/
def strStartsWith (s pre : Chars) : Bool :=
  decide (s.take pre.length = pre)

/-- JS `s.endsWith(suf)`: the last `suf.length` characters equal `suf`. -/
def strEndsWith (s suf : Chars) : Bool :=
  decide (s.drop (s.length - suf.length) = suf)

/-- Drop the last `n` characters. -/
def dropEnd (s : Chars) (n : Nat) : Chars :=
  s.take (s.length - n)

/-- JS `s.trim()`: whitespace removed from both ends. -/
def trimStr (s : Chars) : Chars :=
  ((s.dropWhile Char.isWhitespace).reverse.dropWhile Char.isWhitespace).reverse

/-- The YAML frontmatter delimiter `---` tested by `rawContent.startsWith("---")`. -/
def yamlDelim : Chars := str "---"

/-- The `.md` suffix used by the listing filter and `path.basename`. -/
def mdExt : Chars := str ".md"

/-- Node `path.basename(filename, ".md")` for separator-free names (the names
come from a directory listing): strips a trailing `.md`, except that a name
equal to the bare extension is returned unchanged. -/
def basenameNoMd (filename : Chars) : Chars :=
  if strEndsWith filename mdExt = true ∧ filename ≠ mdExt then
    dropEnd filename mdExt.length
  else filename

/-- The synthesized YAML header template of `ensureFrontmatter` (the JS
template literal, with `date` interpolated twice). -/
def frontmatterFor (date : Chars) : Chars :=
  str "---\ntitle: \"Journal - " ++ date ++ str "\"\ndate: \"" ++ date ++
    str "\"\ndescription: \"Daily journal entry\"\n---\n\n"

/-- Result record of `ensureFrontmatter`: `{ content, changed }`. -/
structure FmResult where
  content : Chars
  changed : Bool
deriving DecidableEq

/-- Function `ensureFrontmatter(filename, rawContent)` from the sync scripts: content
already starting with `---` passes through unchanged; otherwise the header
synthesized from the filename stem is prepended. -/
def ensureFrontmatter (filename rawContent : Chars) : FmResult :=
  if strStartsWith rawContent yamlDelim then
    { content := rawContent, changed := false }
  else
    let date := basenameNoMd filename
    { content := frontmatterFor date ++ rawContent, changed := true }

/-- A directory: an association list from filename to file content (the flat
file listing the scripts read with `readdir`, names in listing order). -/
abbrev Dir := List (Chars × Chars)

/-- Model of `readdir`: the listing of a directory, in order. -/
def namesD (d : Dir) : List Chars := d.map (fun e => e.1)

/-- Model of `readFile`: the content stored under a name (first entry wins). -/
def lookupD (d : Dir) (name : Chars) : Option Chars :=
  match d with
  | [] => none
  | e :: rest => if e.1 = name then some e.2 else lookupD rest name

/-- Model of `writeFile`: overwrite the entry under `name`, or append a new one. -/
def writeD (d : Dir) (name content : Chars) : Dir :=
  match d with
  | [] => [(name, content)]
  | e :: rest =>
      if e.1 = name then (name, content) :: rest else e :: writeD rest name content

/-- Model of `unlink`: remove the entry under `name`. -/
def unlinkD (d : Dir) (name : Chars) : Dir :=
  d.filter (fun e => decide (e.1 ≠ name))

/-- The filesystem state the sync pass touches: the source (Obsidian) journal
directory and the destination (site content) directory. -/
structure SyncState where
  src : Dir
  dst : Dir
deriving DecidableEq

/-- One iteration of the processing loop of `syncJournal`: read the source
file, run `ensureFrontmatter`, write the normalized content back to the source
when it changed, and always write it to the destination. The `none` branch is
unreachable in a run (the name comes from the listing of `src`). -/
def processFile (st : SyncState) (file : Chars) : SyncState :=
  match lookupD st.src file with
  | none => st
  | some rawContent =>
      let r := ensureFrontmatter file rawContent
      let src' := if r.changed then writeD st.src file r.content else st.src
      { src := src', dst := writeD st.dst file r.content }

/-- The stale-removal loop of `syncJournal`: for each name of the destination
listing, delete it when it ends in `.md` and is absent from the processed
source set. -/
def removeStale (d : Dir) (destFiles sourceSet : List Chars) : Dir :=
  destFiles.foldl
    (fun acc file =>
      if strEndsWith file mdExt = true ∧ file ∉ sourceSet then unlinkD acc file
      else acc)
    d

/-- The filesystem part of one `syncJournal` pass: filter the source listing to
`.md` names, run the processing loop over them, then run the stale-removal
loop over the destination listing. -/
def syncFilesPass (st : SyncState) : SyncState :=
  let files := namesD st.src
  let markdownFiles := files.filter (fun f => strEndsWith f mdExt)
  let st1 := markdownFiles.foldl processFile st
  let destFiles := namesD st1.dst
  { src := st1.src, dst := removeStale st1.dst destFiles markdownFiles }

/-- A version-control command issued by the publish tail of `syncJournal`. -/
inductive GitCmd
  | add (paths : List Chars)
  | commit (message : Chars)
  | push
deriving DecidableEq

/-- The Change Detector: `runCapture("git status --porcelain ...").trim()` is
non-empty (JS truthiness of the trimmed status output). -/
def hasChanges (statusRaw : Chars) : Bool :=
  decide (trimStr statusRaw ≠ [])

/-- The publish tail of `syncJournal`: trim the status output; when it is
empty, stop with no commands; otherwise stage the two journal directories,
commit with the date-stamped message (`today` is `toISOString().split("T")[0]`
evaluated at commit time), and push. -/
def publishCommands (statusRaw today : Chars) : List GitCmd :=
  let status := trimStr statusRaw
  if status = [] then []
  else
    [GitCmd.add [str "obsidian/journal", str "src/content/journal"],
     GitCmd.commit (str "journal: update entries " ++ today),
     GitCmd.push]

/-- Working tree plus last committed state of the two journal directories. -/
structure RepoState where
  work : SyncState
  committed : SyncState
deriving DecidableEq

/-- Modelled from the spec: the scoped version-control status query (external
`git`, not part of this repository). Per the spec, the detector returns true
iff the trimmed status output is non-empty, and the glossary defines the
working tree diff as the set of uncommitted differences between the filesystem
and the last committed state; so the scoped status is non-empty exactly when
the working tree of the two directories differs from their committed state. -/
def statusNonEmpty (r : RepoState) : Bool :=
  decide (r.work ≠ r.committed)

/-- One full `syncJournal` run against the modelled repository: mirror the
files, then commit (recording the new committed state) exactly when the
detector reports changes. The boolean reports whether a commit was made. -/
def syncRun (r : RepoState) : RepoState × Bool :=
  let work := syncFilesPass r.work
  if statusNonEmpty { work := work, committed := r.committed } = true then
    ({ work := work, committed := work }, true)
  else
    ({ work := work, committed := r.committed }, false)

/-- Outcome of one pipeline run body, as observed by the callers. -/
inductive SyncResult
  | noChanges
  | pushed
  | failed
deriving DecidableEq

/-- The catch clause of the continuous sync script: on an error, call
`process.exit(1)` unless running in continuous (`--watch`) mode; success paths
never call `exit`. `some c` means the run called `process.exit(c)`. -/
def syncExitCall (continuousMode : Bool) : SyncResult → Option Nat
  | SyncResult.failed => if continuousMode then none else some 1
  | _ => none

/-- Process exit code of the one-shot invocation: the code passed to
`process.exit` when it was called, else the natural exit code 0. -/
def oneShotExitCode (res : SyncResult) : Nat :=
  match syncExitCall false res with
  | some c => c
  | none => 0

/-- The `setInterval` loop of `runContinuously`: a tick runs `syncJournal`
(which catches its own errors in continuous mode) and never clears the
interval; only the signal handlers do. -/
def intervalAfterTick (active : Bool) (_res : SyncResult) : Bool :=
  active

/-- Constant `DEBOUNCE_MS` of the watcher (and `CHECK_INTERVAL` of the interval loop):
30 minutes in milliseconds. -/
def DEBOUNCE_MS : Nat := 30 * 60 * 1000

/-- The module-level state of the watcher: the pending debounce timer (absolute
fire time, if armed), the in-flight guard, and the start times of the sync
runs executed so far (the observable SyncRun history). -/
structure WatchState where
  syncTimeout : Option Nat
  syncInFlight : Bool
  runs : List Nat
deriving DecidableEq

/-- Function `scheduleSync` of the watcher: clear any pending timer and arm a new one
at `now + DEBOUNCE_MS`. -/
def scheduleSync (s : WatchState) (now : Nat) : WatchState :=
  { s with syncTimeout := some (now + DEBOUNCE_MS) }

/-- The `finally` block of `triggerSync`: clear the in-flight guard and
immediately rearm the debounce timer (`scheduleSync("post-sync")`). -/
def finishSync (s : WatchState) (now : Nat) : WatchState :=
  scheduleSync { s with syncInFlight := false } now

/-- Function `triggerSync` of the watcher: when a sync is already in flight the fire is
skipped outright; otherwise the guard is set, the sync subprocess runs
(recorded in `runs`), and the `finally` block clears the guard and rearms. -/
def triggerSync (s : WatchState) (now : Nat) : WatchState :=
  if s.syncInFlight then s
  else finishSync { s with syncInFlight := true, runs := s.runs ++ [now] } now

/-- Event-loop timeline of the watcher, producing the list of SyncRun start
times. Inputs: remaining fuel, the pending debounce timer, and the sorted
times of future filesystem events (each runs `scheduleSync`, cancelling the
pending timer). When the timer expires before the next event, `triggerSync`
runs the sync at the fire time and the `finally` block rearms the timer
`DEBOUNCE_MS` later; `execSync` blocks the event loop, so a fire is atomic. -/
def simulate : Nat → Option Nat → List Nat → List Nat
  | 0, _, _ => []
  | _ + 1, none, [] => []
  | fuel + 1, none, t :: evs => simulate fuel (some (t + DEBOUNCE_MS)) evs
  | fuel + 1, some T, [] => T :: simulate fuel (some (T + DEBOUNCE_MS)) []
  | fuel + 1, some T, t :: evs =>
      if t ≤ T then simulate fuel (some (t + DEBOUNCE_MS)) evs
      else T :: simulate fuel (some (T + DEBOUNCE_MS)) (t :: evs)

/-- The last event time of a burst (`lastD t l` is the last element of
`t :: l`). -/
def lastD : Nat → List Nat → Nat
  | t, [] => t
  | _, t' :: rest => lastD t' rest

/-- A burst starting after time `t`: each next event is no earlier than its
predecessor and strictly less than `DEBOUNCE_MS` after it. -/
def burstOk : Nat → List Nat → Bool
  | _, [] => true
  | t, t' :: rest =>
      decide (t ≤ t') && decide (t' < t + DEBOUNCE_MS) && burstOk t' rest

/-- The content the sync pass stores for a processed file: the normalized form
of its source content. -/
def syncedContent (st : SyncState) (n : Chars) : Chars :=
  (ensureFrontmatter n ((lookupD st.src n).getD [])).content

/-- The watcher state right after process start: the module-level variables
start as no timer, not in flight, no runs, and the script immediately calls
`scheduleSync("startup")` so a sync happens if the vault stays quiet. -/
def watcherStart (start : Nat) : WatchState :=
  scheduleSync { syncTimeout := none, syncInFlight := false, runs := [] } start

theorem take_len_append {α : Type} (a b : List α) : (a ++ b).take a.length = a := by
  induction a with
  | nil => simp
  | cons x xs ih => simp [ih]

theorem drop_len_append {α : Type} (a b : List α) : (a ++ b).drop a.length = b := by
  induction a with
  | nil => simp
  | cons x xs ih => simp [ih]

theorem lookupD_writeD (d : Dir) (n c m : Chars) :
    lookupD (writeD d n c) m = if m = n then some c else lookupD d m := by
  induction d with
  | nil =>
      by_cases h : m = n <;> simp [writeD, lookupD, h, Ne.symm]
  | cons e rest ih =>
      by_cases he : e.1 = n
      · by_cases h : m = n <;>
          simp [writeD, lookupD, he, h, Ne.symm, fun hh => he.trans hh]
      · by_cases hm : e.1 = m
        · have : ¬ m = n := fun hh => he (hm.trans hh)
          simp [writeD, lookupD, he, hm, this]
        · simp [writeD, lookupD, he, hm, ih]

theorem namesD_writeD_mem (d : Dir) (n c : Chars) (h : n ∈ namesD d) :
    namesD (writeD d n c) = namesD d := by
  induction d with
  | nil => simp [namesD] at h
  | cons e rest ih =>
      by_cases he : e.1 = n
      · simp [writeD, namesD, he]
      · have h' : n ∈ namesD rest := by
          rcases (by simpa [namesD] using h) with h1 | h1
          · exact absurd h1.symm he
          · simpa [namesD] using h1
        simp [writeD, namesD, he]
        simpa [namesD] using ih h'

theorem lookupD_eq_none_iff (d : Dir) (n : Chars) :
    lookupD d n = none ↔ n ∉ namesD d := by
  induction d with
  | nil => simp [lookupD, namesD]
  | cons e rest ih =>
      by_cases he : e.1 = n
      · simp [lookupD, namesD, he]
      · simp [lookupD, namesD, he, ih, Ne.symm he]

theorem lookupD_unlinkD (d : Dir) (n m : Chars) :
    lookupD (unlinkD d n) m = if m = n then none else lookupD d m := by
  induction d with
  | nil => simp [unlinkD, lookupD]
  | cons e rest ih =>
      simp only [unlinkD] at ih ⊢
      rw [List.filter_cons]
      by_cases he : e.1 = n
      · rw [if_neg (by simp [he])]
        rw [ih]
        by_cases hm : m = n
        · simp [hm]
        · have hem : ¬ e.1 = m := fun hh => hm (hh.symm.trans he)
          simp [lookupD, hm, hem]
      · rw [if_pos (by simp [he])]
        by_cases hm : e.1 = m
        · have hmn : ¬ m = n := fun hh => he (hm.trans hh)
          simp [lookupD, hm, hmn]
        · simp [lookupD, hm]
          simpa using ih

theorem writeD_lookup_self (d : Dir) (n c : Chars) (h : lookupD d n = some c) :
    writeD d n c = d := by
  induction d with
  | nil => simp [lookupD] at h
  | cons e rest ih =>
      obtain ⟨e1, e2⟩ := e
      by_cases he : e1 = n
      · simp [lookupD, he] at h
        simp [writeD, he, h]
      · simp [lookupD, he] at h
        simp [writeD, he, ih h]

theorem mem_namesD_of_lookup (d : Dir) (n c : Chars) (h : lookupD d n = some c) :
    n ∈ namesD d := by
  by_contra hn
  rw [← lookupD_eq_none_iff] at hn
  simp [h] at hn

theorem ensure_not_changed (f raw : Chars)
    (h : (ensureFrontmatter f raw).changed = false) :
    (ensureFrontmatter f raw).content = raw := by
  by_cases hs : strStartsWith raw yamlDelim = true
  · simp [ensureFrontmatter, hs]
  · simp [ensureFrontmatter, hs] at h

theorem processFile_src_ne (st : SyncState) (f m : Chars) (hm : m ≠ f) :
    lookupD (processFile st f).src m = lookupD st.src m := by
  cases hsf : lookupD st.src f with
  | none => simp [processFile, hsf]
  | some raw =>
      simp only [processFile, hsf]
      split
      · rw [lookupD_writeD]
        simp [hm]
      · rfl

theorem processFile_dst_ne (st : SyncState) (f m : Chars) (hm : m ≠ f) :
    lookupD (processFile st f).dst m = lookupD st.dst m := by
  cases hsf : lookupD st.src f with
  | none => simp [processFile, hsf]
  | some raw => simp [processFile, hsf, lookupD_writeD, hm]

theorem processFile_namesD_src (st : SyncState) (f : Chars) :
    namesD (processFile st f).src = namesD st.src := by
  cases hsf : lookupD st.src f with
  | none => simp [processFile, hsf]
  | some raw =>
      simp only [processFile, hsf]
      split
      · exact namesD_writeD_mem _ _ _ (mem_namesD_of_lookup _ _ _ hsf)
      · rfl

theorem fold_dst_not_mem (files : List Chars) (st : SyncState) (n : Chars)
    (h : n ∉ files) :
    lookupD (files.foldl processFile st).dst n = lookupD st.dst n := by
  induction files generalizing st with
  | nil => rfl
  | cons f fs ih =>
      have hnf : n ≠ f := fun hh => h (List.mem_cons.mpr (Or.inl hh))
      have hfs : n ∉ fs := fun hh => h (List.mem_cons_of_mem f hh)
      rw [List.foldl_cons, ih _ hfs, processFile_dst_ne st f n hnf]

theorem fold_src_not_mem (files : List Chars) (st : SyncState) (n : Chars)
    (h : n ∉ files) :
    lookupD (files.foldl processFile st).src n = lookupD st.src n := by
  induction files generalizing st with
  | nil => rfl
  | cons f fs ih =>
      have hnf : n ≠ f := fun hh => h (List.mem_cons.mpr (Or.inl hh))
      have hfs : n ∉ fs := fun hh => h (List.mem_cons_of_mem f hh)
      rw [List.foldl_cons, ih _ hfs, processFile_src_ne st f n hnf]

theorem fold_namesD_src (files : List Chars) (st : SyncState) :
    namesD (files.foldl processFile st).src = namesD st.src := by
  induction files generalizing st with
  | nil => rfl
  | cons f fs ih => rw [List.foldl_cons, ih, processFile_namesD_src]

theorem fold_lookup_mem (files : List Chars) (st : SyncState) (n : Chars)
    (hnd : files.Nodup)
    (hmem : ∀ f ∈ files, (lookupD st.src f).isSome = true)
    (hn : n ∈ files) :
    lookupD (files.foldl processFile st).src n = some (syncedContent st n) ∧
    lookupD (files.foldl processFile st).dst n = some (syncedContent st n) := by
  induction files generalizing st with
  | nil => cases hn
  | cons f fs ih =>
      rw [List.foldl_cons]
      have hndf : f ∉ fs := (List.nodup_cons.mp hnd).1
      have hndfs : fs.Nodup := (List.nodup_cons.mp hnd).2
      rcases List.mem_cons.mp hn with rfl | hmemfs
      · obtain ⟨raw, hraw⟩ :=
          Option.isSome_iff_exists.mp (hmem n (List.mem_cons_self n fs))
        have hsynced : syncedContent st n = (ensureFrontmatter n raw).content := by
          simp [syncedContent, hraw]
        have hsrc : lookupD (processFile st n).src n = some (syncedContent st n) := by
          simp only [processFile, hraw]

          rw [hsynced]
          split
          · rw [lookupD_writeD]
            simp
          · rename_i hch
            rw [hraw, ensure_not_changed n raw (by simpa using hch)]
        have hdst : lookupD (processFile st n).dst n = some (syncedContent st n) := by
          simp only [processFile, hraw]
          rw [hsynced, lookupD_writeD]
          simp
        rw [fold_src_not_mem fs _ n hndf, fold_dst_not_mem fs _ n hndf]
        exact ⟨hsrc, hdst⟩
      · have hne : n ≠ f := fun hh => hndf (hh ▸ hmemfs)
        have hmem' : ∀ g ∈ fs, (lookupD (processFile st f).src g).isSome = true := by
          intro g hg
          have hgf : g ≠ f := fun hh => hndf (hh ▸ hg)
          rw [processFile_src_ne st f g hgf]
          exact hmem g (List.mem_cons_of_mem f hg)
        have hsc : syncedContent (processFile st f) n = syncedContent st n := by
          simp only [syncedContent]
          rw [processFile_src_ne st f n hne]
        have := ih (processFile st f) hndfs hmem' hmemfs
        rw [hsc] at this
        exact this

theorem removeStale_lookup (destFiles sourceSet : List Chars) (d : Dir) (n : Chars) :
    lookupD (removeStale d destFiles sourceSet) n =
      if n ∈ destFiles ∧ strEndsWith n mdExt = true ∧ n ∉ sourceSet then none
      else lookupD d n := by
  induction destFiles generalizing d with
  | nil => simp [removeStale]
  | cons f fs ih =>
      have hstep : ∀ d' : Dir,
          lookupD (if strEndsWith f mdExt = true ∧ f ∉ sourceSet then unlinkD d' f else d') n
            = if n = f ∧ strEndsWith n mdExt = true ∧ n ∉ sourceSet then none
              else lookupD d' n := by
        intro d'
        by_cases hnf : n = f
        · subst hnf
          by_cases hmd : strEndsWith n mdExt = true <;>
            by_cases hS : n ∈ sourceSet <;>
              simp [hmd, hS, lookupD_unlinkD]
        · by_cases hc : strEndsWith f mdExt = true ∧ f ∉ sourceSet <;>
            simp [hc, hnf, lookupD_unlinkD]
      simp only [removeStale, List.foldl_cons] at ih ⊢
      rw [ih, hstep]
      by_cases hmd : strEndsWith n mdExt = true <;>
        by_cases hS : n ∈ sourceSet <;>
          by_cases hnf : n = f <;>
            by_cases hfs : n ∈ fs <;>
              simp [hmd, hS, hnf, hfs, List.mem_cons] <;>
                exact fun h1 h2 h3 => by simp [h2, h3]

theorem removeStale_noop (destFiles sourceSet : List Chars) (d : Dir)
    (h : ∀ f ∈ destFiles, ¬ (strEndsWith f mdExt = true ∧ f ∉ sourceSet)) :
    removeStale d destFiles sourceSet = d := by
  induction destFiles generalizing d with
  | nil => rfl
  | cons f fs ih =>
      simp only [removeStale, List.foldl_cons] at ih ⊢
      rw [if_neg (h f (List.mem_cons_self f fs))]
      exact ih d (fun g hg => h g (List.mem_cons_of_mem f hg))

theorem fold_processFile_noop (files : List Chars) (st : SyncState)
    (h : ∀ f ∈ files, ∃ c, lookupD st.src f = some c ∧
          ensureFrontmatter f c = { content := c, changed := false } ∧
          lookupD st.dst f = some c) :
    files.foldl processFile st = st := by
  induction files with
  | nil => rfl
  | cons f fs ih =>
      obtain ⟨c, hs, he, hd⟩ := h f (List.mem_cons_self f fs)
      have hpf : processFile st f = st := by
        simp [processFile, hs, he, writeD_lookup_self st.dst f c hd]
      rw [List.foldl_cons, hpf]
      exact ih (fun g hg => h g (List.mem_cons_of_mem f hg))

theorem isSome_lookupD_of_mem (d : Dir) (f : Chars) (hf : f ∈ namesD d) :
    (lookupD d f).isSome = true := by
  cases ho : lookupD d f with
  | none =>
      rw [lookupD_eq_none_iff] at ho
      exact absurd hf ho
  | some c => rfl

theorem take_append_of_le {α : Type} (n : Nat) (a b : List α) (h : n ≤ a.length) :
    (a ++ b).take n = a.take n := by
  induction a generalizing n with
  | nil =>
      simp at h
      simp [h]
  | cons x xs ih =>
      cases n with
      | zero => simp
      | succ m => simp [ih m (by simpa using h)]

theorem frontmatter_startsWith (d raw : Chars) :
    strStartsWith (frontmatterFor d ++ raw) yamlDelim = true := by
  have h1 : frontmatterFor d ++ raw =
      str "---\ntitle: \"Journal - " ++
        (d ++ (str "\"\ndate: \"" ++
          (d ++ (str "\"\ndescription: \"Daily journal entry\"\n---\n\n" ++ raw)))) := by
    simp [frontmatterFor, List.append_assoc]
  simp only [strStartsWith, h1]
  rw [take_append_of_le _ _ _ (by decide)]
  decide

theorem ensureFrontmatter_self (f raw : Chars) :
    ensureFrontmatter f (ensureFrontmatter f raw).content =
      { content := (ensureFrontmatter f raw).content, changed := false } := by
  by_cases hs : strStartsWith raw yamlDelim = true
  · simp [ensureFrontmatter, hs]
  · have h1 : ensureFrontmatter f raw =
        { content := frontmatterFor (basenameNoMd f) ++ raw, changed := true } := by
      simp [ensureFrontmatter, hs]
    rw [h1]
    simp [ensureFrontmatter, frontmatter_startsWith]

theorem basenameNoMd_append (stem : Chars) (hne : stem ≠ []) :
    basenameNoMd (stem ++ mdExt) = stem := by
  have hmain : (stem ++ mdExt).length - mdExt.length = stem.length := by
    simp [List.length_append]
  have hend : strEndsWith (stem ++ mdExt) mdExt = true := by
    simp only [strEndsWith, hmain, drop_len_append]
    simp
  have hneq : stem ++ mdExt ≠ mdExt := by
    intro hh
    have hl : (stem ++ mdExt).length = mdExt.length := by rw [hh]
    simp [List.length_append] at hl
    exact hne hl
  simp only [basenameNoMd, if_pos (And.intro hend hneq), dropEnd, hmain,
    take_len_append]

theorem syncFilesPass_idem (st : SyncState) (h : (namesD st.src).Nodup) :
    syncFilesPass (syncFilesPass st) = syncFilesPass st := by
  set mdFiles := (namesD st.src).filter (fun f => strEndsWith f mdExt) with hmdF
  set st1 := mdFiles.foldl processFile st with hst1
  set w1 : SyncState :=
    { src := st1.src, dst := removeStale st1.dst (namesD st1.dst) mdFiles }
    with hw1def
  have hw1 : syncFilesPass st = w1 := rfl
  have hmd_nodup : mdFiles.Nodup := List.Nodup.filter _ h
  have hsome : ∀ f ∈ mdFiles, (lookupD st.src f).isSome = true := fun f hf =>
    isSome_lookupD_of_mem _ _ (List.mem_filter.mp hf).1
  have hnames1 : namesD st1.src = namesD st.src := fold_namesD_src mdFiles st
  have hfacts : ∀ f ∈ mdFiles, ∃ c, lookupD w1.src f = some c ∧
      ensureFrontmatter f c = { content := c, changed := false } ∧
      lookupD w1.dst f = some c := by
    intro f hf
    obtain ⟨hs1, hd1⟩ := fold_lookup_mem mdFiles st f hmd_nodup hsome hf
    refine ⟨syncedContent st f, hs1, ?_, ?_⟩
    · simp only [syncedContent]
      exact ensureFrontmatter_self f _
    · show lookupD (removeStale st1.dst (namesD st1.dst) mdFiles) f = _
      rw [removeStale_lookup, if_neg (by simp [hf])]
      exact hd1
  have hfold2 : mdFiles.foldl processFile w1 = w1 :=
    fold_processFile_noop mdFiles w1 hfacts
  have hstale2 : removeStale w1.dst (namesD w1.dst) mdFiles = w1.dst := by
    apply removeStale_noop
    intro f hf hcon
    obtain ⟨hmdf, hnotf⟩ := hcon
    have hne : lookupD w1.dst f ≠ none := fun hno =>
      ((lookupD_eq_none_iff _ _).mp hno) hf
    have hno : lookupD w1.dst f = none := by
      show lookupD (removeStale st1.dst (namesD st1.dst) mdFiles) f = none
      rw [removeStale_lookup]
      by_cases hin : f ∈ namesD st1.dst
      · rw [if_pos ⟨hin, hmdf, hnotf⟩]
      · rw [if_neg (fun hc => hin hc.1)]
        exact (lookupD_eq_none_iff _ _).mpr hin
    exact hne hno
  have hpass2 : syncFilesPass w1 =
      { src := (mdFiles.foldl processFile w1).src,
        dst := removeStale (mdFiles.foldl processFile w1).dst
                 (namesD (mdFiles.foldl processFile w1).dst) mdFiles } := by
    simp only [syncFilesPass]
    have : namesD w1.src = namesD st.src := hnames1
    rw [this, ← hmdF]
  rw [hw1, hpass2, hfold2, hstale2]

theorem simulate_empty (fuel T : Nat) :
    simulate fuel (some T) [] =
      (List.range fuel).map (fun i => T + i * DEBOUNCE_MS) := by
  induction fuel generalizing T with
  | zero => rfl
  | succ n ih =>
      show T :: simulate n (some (T + DEBOUNCE_MS)) [] = _
      rw [ih, List.range_succ_eq_map, List.map_cons, List.map_map]
      have hc : ((fun i => T + i * DEBOUNCE_MS) ∘ Nat.succ) =
          (fun i => (T + DEBOUNCE_MS) + i * DEBOUNCE_MS) := by
        funext i
        simp [Function.comp, Nat.succ_eq_add_one]
        ring
      rw [hc]
      simp

theorem simulate_burst (rest : List Nat) (t1 T0 fuel : Nat)
    (h1 : t1 ≤ T0) (hb : burstOk t1 rest = true) :
    simulate (fuel + (rest.length + 1)) (some T0) (t1 :: rest) =
      simulate fuel (some (lastD t1 rest + DEBOUNCE_MS)) [] := by
  induction rest generalizing t1 T0 with
  | nil =>
      show (if t1 ≤ T0 then simulate fuel (some (t1 + DEBOUNCE_MS)) []
            else T0 :: simulate fuel (some (T0 + DEBOUNCE_MS)) [t1]) = _
      rw [if_pos h1]
      rfl
  | cons t2 r ih =>
      simp only [burstOk, Bool.and_eq_true, decide_eq_true_eq] at hb
      obtain ⟨⟨hle, hlt⟩, hrest⟩ := hb
      show (if t1 ≤ T0 then
              simulate (fuel + (r.length + 1)) (some (t1 + DEBOUNCE_MS)) (t2 :: r)
            else T0 :: simulate (fuel + (r.length + 1)) (some (T0 + DEBOUNCE_MS))
                   (t1 :: t2 :: r)) = _
      rw [if_pos h1]
      exact ih t2 (t1 + DEBOUNCE_MS) (Nat.le_of_lt hlt) hrest

/-- C1: after one mirror pass the destination table of `.md` files equals the
source table: every source `.md` file is present with its normalized content
(overwriting any previous copy), and every `.md` name absent from the source
listing is absent from the destination. -/
theorem mirror_completeness (st : SyncState) (h : (namesD st.src).Nodup)
    (n : Chars) (hmd : strEndsWith n mdExt = true) :
    lookupD (syncFilesPass st).dst n =
      Option.map (fun raw => (ensureFrontmatter n raw).content) (lookupD st.src n) := by
  have hmdF : ((namesD st.src).filter (fun f => strEndsWith f mdExt)).Nodup :=
    List.Nodup.filter _ h
  have hsome : ∀ f ∈ (namesD st.src).filter (fun f => strEndsWith f mdExt),
      (lookupD st.src f).isSome = true := fun f hf =>
    isSome_lookupD_of_mem _ _ (List.mem_filter.mp hf).1
  simp only [syncFilesPass]
  rw [removeStale_lookup]
  cases hsrc : lookupD st.src n with
  | some raw =>
      have hmem : n ∈ namesD st.src := mem_namesD_of_lookup _ _ _ hsrc
      have hmf : n ∈ (namesD st.src).filter (fun f => strEndsWith f mdExt) :=
        List.mem_filter.mpr ⟨hmem, hmd⟩
      obtain ⟨hs1, hd1⟩ := fold_lookup_mem _ st n hmdF hsome hmf
      rw [if_neg (by simp [hmf]), hd1]
      simp [syncedContent, hsrc]
  | none =>
      have hnmem : n ∉ namesD st.src := (lookupD_eq_none_iff _ _).mp hsrc
      have hnmf : n ∉ (namesD st.src).filter (fun f => strEndsWith f mdExt) :=
        fun hh => hnmem (List.mem_filter.mp hh).1
      by_cases hdest :
          n ∈ namesD (((namesD st.src).filter (fun f => strEndsWith f mdExt)).foldl
            processFile st).dst
      · rw [if_pos ⟨hdest, hmd, hnmf⟩]
        rfl
      · rw [if_neg (fun hc => hdest hc.1), (lookupD_eq_none_iff _ _).mpr hdest]
        rfl

/-- Witness for C1: the spec scenario, source `{a.md, b.md}` against a
destination holding `{b.md, c.md}`; the pre-existing `c.md` is gone after the
pass. -/
theorem mirror_completeness_app :
    (namesD ({ src := [(str "a.md", str "alpha"), (str "b.md", str "---\nbeta")],
               dst := [(str "b.md", str "old"), (str "c.md", str "gone")] :
               SyncState }).src).Nodup ∧
    strEndsWith (str "c.md") mdExt = true ∧
    lookupD (syncFilesPass
        { src := [(str "a.md", str "alpha"), (str "b.md", str "---\nbeta")],
          dst := [(str "b.md", str "old"), (str "c.md", str "gone")] }).dst
        (str "c.md") =
      Option.map (fun raw => (ensureFrontmatter (str "c.md") raw).content)
        (lookupD ({ src := [(str "a.md", str "alpha"), (str "b.md", str "---\nbeta")],
                    dst := [(str "b.md", str "old"), (str "c.md", str "gone")] :
                    SyncState }).src (str "c.md")) :=
  ⟨by decide, by decide,
    mirror_completeness
      { src := [(str "a.md", str "alpha"), (str "b.md", str "---\nbeta")],
        dst := [(str "b.md", str "old"), (str "c.md", str "gone")] }
      (by decide) (str "c.md") (by decide)⟩

/-- C2: for content not starting with the YAML delimiter and a filename of the
form `stem ++ ".md"` (nonempty stem), `ensureFrontmatter` reports
`changed = true` and returns the synthesized header — title
`Journal - stem`, date `stem`, description `Daily journal entry` — followed by
a blank line and the original body byte-for-byte. -/
theorem ensureFrontmatter_injects (stem rawContent : Chars)
    (hne : stem ≠ []) (h : strStartsWith rawContent yamlDelim = false) :
    ensureFrontmatter (stem ++ mdExt) rawContent =
      { content := str "---\ntitle: \"Journal - " ++ stem ++ str "\"\ndate: \"" ++
          stem ++ str "\"\ndescription: \"Daily journal entry\"\n---\n\n" ++ rawContent,
        changed := true } := by
  simp only [ensureFrontmatter, h]
  rw [basenameNoMd_append stem hne]
  simp [frontmatterFor, List.append_assoc]

/-- Witness for C2: the spec example `ensureFrontmatter("2025-08-25.md",
"body text")`. -/
theorem ensureFrontmatter_injects_app :
    str "2025-08-25" ≠ ([] : Chars) ∧
    strStartsWith (str "body text") yamlDelim = false ∧
    ensureFrontmatter (str "2025-08-25" ++ mdExt) (str "body text") =
      { content := str "---\ntitle: \"Journal - " ++ str "2025-08-25" ++
          str "\"\ndate: \"" ++ str "2025-08-25" ++
          str "\"\ndescription: \"Daily journal entry\"\n---\n\n" ++ str "body text",
        changed := true } :=
  ⟨by decide, by decide,
    ensureFrontmatter_injects (str "2025-08-25") (str "body text")
      (by decide) (by decide)⟩

/-- C3: a burst of events each within 30 minutes of its predecessor (the first
arriving while a timer is still pending) cancels every pending timer in turn,
triggers no run during the burst, and yields exactly one run attributable to
the burst, fired `DEBOUNCE_MS` after the last event; the later entries of the
run list (at `+ i * DEBOUNCE_MS`) come solely from the post-sync rearm. -/
theorem debounce_coalescing (t1 T0 fuel : Nat) (rest : List Nat)
    (h1 : t1 ≤ T0) (hb : burstOk t1 rest = true) :
    simulate (fuel + (rest.length + 1)) (some T0) (t1 :: rest) =
      (List.range fuel).map
        (fun i => (lastD t1 rest + DEBOUNCE_MS) + i * DEBOUNCE_MS) := by
  rw [simulate_burst rest t1 T0 fuel h1 hb, simulate_empty]

/-- Witness for C3: three events at 50, 60, 70 ms with an initial timer
pending at 100 ms; the first run is at `70 + DEBOUNCE_MS`. -/
theorem debounce_coalescing_app :
    (50 : Nat) ≤ 100 ∧ burstOk 50 [60, 70] = true ∧
    simulate (2 + (([60, 70] : List Nat).length + 1)) (some 100) [50, 60, 70] =
      (List.range 2).map
        (fun i => (lastD 50 [60, 70] + DEBOUNCE_MS) + i * DEBOUNCE_MS) :=
  ⟨by decide, by decide, debounce_coalescing 50 100 2 [60, 70] (by decide) (by decide)⟩

/-- C4: a timer fire while `syncInFlight` is true starts no second run and
queues nothing (the state is untouched), and when the in-flight run completes
its `finally` block clears the guard and reschedules the sync at
`now + DEBOUNCE_MS`. -/
theorem no_concurrent_runs (s : WatchState) (now now2 : Nat)
    (h : s.syncInFlight = true) :
    triggerSync s now = s ∧
    (triggerSync s now).runs = s.runs ∧
    (finishSync s now2).syncInFlight = false ∧
    (finishSync s now2).syncTimeout = some (now2 + DEBOUNCE_MS) := by
  refine ⟨?_, ?_, rfl, rfl⟩ <;> simp [triggerSync, h]

/-- Witness for C4: a concrete in-flight state. -/
theorem no_concurrent_runs_app :
    ({ syncTimeout := some 17, syncInFlight := true, runs := [3] } :
        WatchState).syncInFlight = true ∧
    (triggerSync { syncTimeout := some 17, syncInFlight := true, runs := [3] } 20 =
        { syncTimeout := some 17, syncInFlight := true, runs := [3] } ∧
      (triggerSync { syncTimeout := some 17, syncInFlight := true, runs := [3] } 20).runs =
        ({ syncTimeout := some 17, syncInFlight := true, runs := [3] } : WatchState).runs ∧
      (finishSync { syncTimeout := some 17, syncInFlight := true, runs := [3] } 25).syncInFlight
        = false ∧
      (finishSync { syncTimeout := some 17, syncInFlight := true, runs := [3] } 25).syncTimeout
        = some (25 + DEBOUNCE_MS)) :=
  ⟨by decide,
    no_concurrent_runs { syncTimeout := some 17, syncInFlight := true, runs := [3] }
      20 25 (by decide)⟩

/-- C5: the Change Detector is true iff the trimmed status output is
non-empty, and the publish tail runs stage/commit/push exactly when it is
true, staging exactly the two journal directories and committing with the
date-stamped message. -/
theorem change_detector_publisher (statusRaw today : Chars) :
    (hasChanges statusRaw = true ↔ trimStr statusRaw ≠ []) ∧
    publishCommands statusRaw today =
      (if hasChanges statusRaw = true then
        [GitCmd.add [str "obsidian/journal", str "src/content/journal"],
         GitCmd.commit (str "journal: update entries " ++ today),
         GitCmd.push]
       else []) := by
  constructor
  · simp [hasChanges]
  · by_cases hc : trimStr statusRaw = [] <;> simp [publishCommands, hasChanges, hc]

/-- C6: `ensureFrontmatter` is idempotent on its own output (`changed = false`
the second time), and a second `syncRun` with no intervening changes leaves
the repository state unchanged and makes no commit (the detector reports
false). -/
theorem sync_pipeline_idempotent (r : RepoState) (h : (namesD r.work.src).Nodup)
    (f raw : Chars) :
    ensureFrontmatter f (ensureFrontmatter f raw).content =
      { content := (ensureFrontmatter f raw).content, changed := false } ∧
    (syncRun (syncRun r).1).1 = (syncRun r).1 ∧
    (syncRun (syncRun r).1).2 = false := by
  have hidem := syncFilesPass_idem r.work h
  have key : (syncRun (syncRun r).1).1 = (syncRun r).1 ∧
      (syncRun (syncRun r).1).2 = false := by
    by_cases hch : syncFilesPass r.work ≠ r.committed
    · have h1 : syncRun r =
          ({ work := syncFilesPass r.work, committed := syncFilesPass r.work }, true) := by
        simp [syncRun, statusNonEmpty, hch]
      have h2 : syncRun { work := syncFilesPass r.work, committed := syncFilesPass r.work } =
          ({ work := syncFilesPass r.work, committed := syncFilesPass r.work }, false) := by
        simp [syncRun, statusNonEmpty, hidem]
      rw [h1]
      simp [h2]
    · push_neg at hch
      have hidem2 : syncFilesPass r.committed = r.committed := by
        rw [← hch]
        exact hidem
      have h1 : syncRun r =
          ({ work := syncFilesPass r.work, committed := r.committed }, false) := by
        simp [syncRun, statusNonEmpty, hch]
      have h2 : syncRun { work := syncFilesPass r.work, committed := r.committed } =
          ({ work := syncFilesPass r.work, committed := r.committed }, false) := by
        simp [syncRun, statusNonEmpty, hch, hidem2]
      rw [h1]
      simp [h2]
  exact ⟨ensureFrontmatter_self f raw, key.1, key.2⟩

/-- Witness for C6: the end-to-end spec scenario, one file without
frontmatter, empty destination, nothing committed yet. -/
theorem sync_pipeline_idempotent_app :
    (namesD ({ work := { src := [(str "2025-01-01.md", str "Hello")], dst := [] },
               committed := { src := [], dst := [] } : RepoState }).work.src).Nodup ∧
    (ensureFrontmatter (str "a.md")
        (ensureFrontmatter (str "a.md") (str "x")).content =
      { content := (ensureFrontmatter (str "a.md") (str "x")).content,
        changed := false } ∧
      (syncRun (syncRun
          { work := { src := [(str "2025-01-01.md", str "Hello")], dst := [] },
            committed := { src := [], dst := [] } }).1).1 =
        (syncRun
          { work := { src := [(str "2025-01-01.md", str "Hello")], dst := [] },
            committed := { src := [], dst := [] } }).1 ∧
      (syncRun (syncRun
          { work := { src := [(str "2025-01-01.md", str "Hello")], dst := [] },
            committed := { src := [], dst := [] } }).1).2 = false) :=
  ⟨by decide,
    sync_pipeline_idempotent
      { work := { src := [(str "2025-01-01.md", str "Hello")], dst := [] },
        committed := { src := [], dst := [] } }
      (by decide) (str "a.md") (str "x")⟩

/-- C7: a failing run exits the process with code 1 (non-zero) in the one-shot
path, a no-changes one-shot run exits 0, and in continuous mode no outcome
calls `process.exit` and the interval survives every tick. -/
theorem error_exit_policy (res : SyncResult) (active : Bool) :
    syncExitCall false SyncResult.failed = some 1 ∧
    (1 : Nat) ≠ 0 ∧
    oneShotExitCode SyncResult.noChanges = 0 ∧
    syncExitCall true res = none ∧
    intervalAfterTick active res = active := by
  refine ⟨rfl, by decide, rfl, ?_, rfl⟩
  cases res <;> rfl

/-- C8: content already starting with the YAML delimiter passes through
unchanged with `changed = false`, for every filename. -/
theorem frontmatter_passthrough (filename rawContent : Chars)
    (h : strStartsWith rawContent yamlDelim = true) :
    ensureFrontmatter filename rawContent =
      { content := rawContent, changed := false } := by
  simp [ensureFrontmatter, h]

/-- Witness for C8: the spec example with existing frontmatter. -/
theorem frontmatter_passthrough_app :
    strStartsWith (str "---\ntitle: X\n---\nbody") yamlDelim = true ∧
    ensureFrontmatter (str "n.md") (str "---\ntitle: X\n---\nbody") =
      { content := str "---\ntitle: X\n---\nbody", changed := false } :=
  ⟨by decide,
    frontmatter_passthrough (str "n.md") (str "---\ntitle: X\n---\nbody") (by decide)⟩

/-- C9: a destination entry whose name does not end in `.md` is left
byte-for-byte unchanged by a sync pass: the processing loop writes only names
from the `.md`-filtered source listing and the stale-removal loop deletes only
`.md` names. -/
theorem mirror_frame_non_md (st : SyncState) (n : Chars)
    (hnmd : strEndsWith n mdExt = false) :
    lookupD (syncFilesPass st).dst n = lookupD st.dst n := by
  have hnmf : n ∉ (namesD st.src).filter (fun f => strEndsWith f mdExt) := by
    intro hh
    have h2 := (List.mem_filter.mp hh).2
    rw [hnmd] at h2
    cases h2
  simp only [syncFilesPass]
  rw [removeStale_lookup, if_neg (by simp [hnmd])]
  exact fold_dst_not_mem _ st n hnmf

/-- Witness for C9: `notes.txt` sits in the destination next to a stale
`.md` file and survives the pass with its content. -/
theorem mirror_frame_non_md_app :
    strEndsWith (str "notes.txt") mdExt = false ∧
    lookupD (syncFilesPass
        { src := [(str "a.md", str "alpha")],
          dst := [(str "old.md", str "stale"), (str "notes.txt", str "x")] }).dst
        (str "notes.txt") =
      lookupD ({ src := [(str "a.md", str "alpha")],
                 dst := [(str "old.md", str "stale"), (str "notes.txt", str "x")] :
                 SyncState }).dst (str "notes.txt") :=
  ⟨by decide,
    mirror_frame_non_md
      { src := [(str "a.md", str "alpha")],
        dst := [(str "old.md", str "stale"), (str "notes.txt", str "x")] }
      (str "notes.txt") (by decide)⟩

/-- C10: the watcher arms a 30-minute timer at process start before any
filesystem event, every completed run immediately rearms via its `finally`
block, and with zero filesystem events the runs form the arithmetic
progression `start + DEBOUNCE_MS + i * DEBOUNCE_MS` — one run roughly every
30 minutes for the life of the process. -/
theorem watcher_self_rearm (start fuel now : Nat) (s : WatchState)
    (h : s.syncInFlight = false) :
    (watcherStart start).syncTimeout = some (start + DEBOUNCE_MS) ∧
    (triggerSync s now).syncTimeout = some (now + DEBOUNCE_MS) ∧
    simulate fuel (some (start + DEBOUNCE_MS)) [] =
      (List.range fuel).map (fun i => (start + DEBOUNCE_MS) + i * DEBOUNCE_MS) := by
  refine ⟨rfl, ?_, simulate_empty fuel _⟩
  simp [triggerSync, h, finishSync, scheduleSync]

/-- Witness for C10: a fresh watcher with three timer expiries and no
events. -/
theorem watcher_self_rearm_app :
    ({ syncTimeout := none, syncInFlight := false, runs := [] } :
        WatchState).syncInFlight = false ∧
    ((watcherStart 0).syncTimeout = some (0 + DEBOUNCE_MS) ∧
      (triggerSync { syncTimeout := none, syncInFlight := false, runs := [] } 5).syncTimeout
        = some (5 + DEBOUNCE_MS) ∧
      simulate 3 (some (0 + DEBOUNCE_MS)) [] =
        (List.range 3).map (fun i => (0 + DEBOUNCE_MS) + i * DEBOUNCE_MS)) :=
  ⟨by decide,
    watcher_self_rearm 0 3 5
      { syncTimeout := none, syncInFlight := false, runs := [] } (by decide)⟩
